import Mathlib

set_option maxRecDepth 8192

/-!
Verification of the credential module of a Belenios-style voting core
(src/datatypes/credentials.rs).

The development shallowly embeds the Rust code:

* strings of bytes become `List Nat` (each entry a `u8` value, `< 256`);
* `u128` / `isize` arithmetic is `Nat` / `Int` with explicit reduction
  modulo `2 ^ 128` resp. two's-complement truncation at 64 bits at every
  point where the machine type could wrap;
* operations that can panic (out-of-bounds indexing) return `Option`,
  `none` modelling the panic.

The Base58 tables and the group/scalar types live in repository files that
are not part of the sources provided (base58.rs, primitives/group.rs); they
are modelled from the specification, as documented on each definition.
-/

/-- Modelled from the spec: `LOOKUPTABLE` of base58.rs (not in src/), the
forward table `digit → ASCII symbol` of the 58-symbol Base58 alphabet
(digits and letters, excluding the visually ambiguous 0, O, I, l). -/
def LOOKUPTABLE : List Nat :=
  [49, 50, 51, 52, 53, 54, 55, 56, 57, 65, 66, 67, 68, 69, 70, 71, 72, 74,
   75, 76, 77, 78, 80, 81, 82, 83, 84, 85, 86, 87, 88, 89, 90, 97, 98, 99,
   100, 101, 102, 103, 104, 105, 106, 107, 109, 110, 111, 112, 113, 114,
   115, 116, 117, 118, 119, 120, 121, 122]

/-- Modelled from the spec: `INV_LOOKUPTABLE` of base58.rs (not in src/),
the 256-entry inverse table `ASCII byte → digit ∈ [0,58)`, with 255 marking
bytes outside the alphabet. -/
def INV_LOOKUPTABLE : List Nat :=
  [255, 255, 255, 255, 255, 255, 255, 255, 255, 255, 255, 255, 255, 255, 255, 255,
   255, 255, 255, 255, 255, 255, 255, 255, 255, 255, 255, 255, 255, 255, 255, 255,
   255, 255, 255, 255, 255, 255, 255, 255, 255, 255, 255, 255, 255, 255, 255, 255,
   255, 0, 1, 2, 3, 4, 5, 6, 7, 8, 255, 255, 255, 255, 255, 255,
   255, 9, 10, 11, 12, 13, 14, 15, 16, 255, 17, 18, 19, 20, 21, 255,
   22, 23, 24, 25, 26, 27, 28, 29, 30, 31, 32, 255, 255, 255, 255, 255,
   255, 33, 34, 35, 36, 37, 38, 39, 40, 41, 42, 43, 255, 44, 45, 46,
   47, 48, 49, 50, 51, 52, 53, 54, 55, 56, 57, 255, 255, 255, 255, 255,
   255, 255, 255, 255, 255, 255, 255, 255, 255, 255, 255, 255, 255, 255, 255, 255,
   255, 255, 255, 255, 255, 255, 255, 255, 255, 255, 255, 255, 255, 255, 255, 255,
   255, 255, 255, 255, 255, 255, 255, 255, 255, 255, 255, 255, 255, 255, 255, 255,
   255, 255, 255, 255, 255, 255, 255, 255, 255, 255, 255, 255, 255, 255, 255, 255,
   255, 255, 255, 255, 255, 255, 255, 255, 255, 255, 255, 255, 255, 255, 255, 255,
   255, 255, 255, 255, 255, 255, 255, 255, 255, 255, 255, 255, 255, 255, 255, 255,
   255, 255, 255, 255, 255, 255, 255, 255, 255, 255, 255, 255, 255, 255, 255, 255,
   255, 255, 255, 255, 255, 255, 255, 255, 255, 255, 255, 255, 255, 255, 255, 255]

/-- Modelled from the spec: `BASE58_STRLEN` of base58.rs (not in src/);
the design fixes N = 22 characters. -/
def BASE58_STRLEN : Nat := 22

/-- Modelled from the spec: the `Base58` newtype of base58.rs (not in src/),
a wrapper around a string; `str` is the list of the string's bytes. -/
structure Base58 where
  str : List Nat
deriving DecidableEq

/-- The Base58 invariant of the spec's data model: exactly
`BASE58_STRLEN` characters, each a symbol of the 58-symbol alphabet. -/
def isBase58 (b : Base58) : Prop :=
  b.str.length = BASE58_STRLEN ∧ ∀ c ∈ b.str, c ∈ LOOKUPTABLE

instance (b : Base58) : Decidable (isBase58 b) := by
  unfold isBase58
  exact instDecidableAnd

/-- `UUID(Base58)` of credentials.rs. -/
structure UUID where
  val : Base58
deriving DecidableEq

/-- `Password(Base58)` of credentials.rs. -/
structure Password where
  val : Base58
deriving DecidableEq

/-- Reduction modulo `2 ^ 128`, the wrap of Rust `u128` arithmetic. -/
def wrap128 (n : Nat) : Nat := n % 2 ^ 128

/-- Two's-complement truncation to 64 bits: the value an `isize` holds
after a wrapping operation (or after `as isize` on a wider integer). -/
def wrapIsize (z : Int) : Int := (z + 2 ^ 63) % 2 ^ 64 - 2 ^ 63

/-- The `for` loop of `Password::checksum`: iterates over the (already
reversed) leading bytes with their enumeration index, accumulating
`check += (58u128.pow(idx as u32) * INV_LOOKUPTABLE[c as usize]).rem_euclid(53)`.
The table access is modelled with `get?`; `none` is the out-of-bounds
panic (unreachable in Rust, where the index is a `u8`). -/
def checksumLoop : List Nat → Nat → Nat → Option Nat
  | [], _, check => some check
  | c :: rest, idx, check =>
    match INV_LOOKUPTABLE.get? c with
    | none => none
    | some d =>
      checksumLoop rest (idx + 1)
        (wrap128 (check + wrap128 (wrap128 (58 ^ (idx % 2 ^ 32)) * d) % 53))

/-- `Password::checksum`: fold the loop over the reversed first
`BASE58_STRLEN - 1` bytes, then
`((53isize - (check as isize)).rem_euclid(53)) as u8`. -/
def Password.checksum (p : Password) : Option Nat :=
  match checksumLoop ((p.val.str.take (BASE58_STRLEN - 1)).reverse) 0 0 with
  | none => none
  | some check => some ((wrapIsize (53 - wrapIsize check) % 53).toNat % 256)

/-- `Password::insert_checksum`: compute the checksum, pop the final
character, push `LOOKUPTABLE[check as usize]`. -/
def Password.insert_checksum (p : Password) : Option Password :=
  match p.checksum with
  | none => none
  | some check =>
    match LOOKUPTABLE.get? check with
    | none => none
    | some sym => some ⟨⟨p.val.str.dropLast ++ [sym]⟩⟩

/-- `Password::validate_checksum`:
`self.0.0.as_bytes()[BASE58_STRLEN - 1] == LOOKUPTABLE[self.checksum() as usize]`.
`none` models the two possible panics (byte index, table index). -/
def Password.validate_checksum (p : Password) : Option Bool :=
  match p.val.str.get? (BASE58_STRLEN - 1) with
  | none => none
  | some last =>
    match p.checksum with
    | none => none
    | some chk =>
      match LOOKUPTABLE.get? chk with
      | none => none
      | some sym => some (last == sym)

/-- `Password::gen`. Modelled from the spec for the randomness part:
`Base58::gen` (base58.rs, not in src/) draws 22 uniform alphabet symbols;
the drawn value is abstracted as the parameter `b`. The body then runs
`insert_checksum` exactly as credentials.rs does. -/
def Password.gen (b : Base58) : Option Password :=
  Password.insert_checksum ⟨b⟩

/-- `Credential { password, uuid }` of credentials.rs. -/
structure Credential where
  password : Password
  uuid : UUID
deriving DecidableEq

/-- `Credential::gen`: a fresh password paired with (a clone of) the
given UUID; the random draw is the parameter `b`, as in `Password.gen`. -/
def Credential.gen (b : Base58) (u : UUID) : Option Credential :=
  (Password.gen b).map fun p => ⟨p, u⟩

/-- `From<(Password, UUID)> for Credential`. -/
def Credential.ofPair (p : Password) (u : UUID) : Credential := ⟨p, u⟩

/-- Modelled from the spec: the `Scalar` type of primitives/group.rs (not
in src/): an element of the group's scalar field, the integers modulo the
group order `q`. -/
abbrev Scalar (q : Nat) := ZMod q

/-- Modelled from the spec: `Scalar::from_bytes_mod_order` of
primitives/group.rs (not in src/): interpret a 32-byte buffer as a
(little-endian) integer and reduce it modulo the group order; total on
every byte input. The `% 256` records that Rust's input bytes are `u8`. -/
def Scalar.from_bytes_mod_order (q : Nat) (bytes : List Nat) : Scalar q :=
  ((bytes.foldr (fun b acc => b % 256 + 256 * acc) 0 : Nat) : ZMod q)

/-- Modelled from the spec: the `Point` type of primitives/group.rs (not
in src/). The group is cyclic, generated by the fixed generator; a point
is represented by its discrete logarithm to that generator. -/
structure Point (q : Nat) where
  dlog : ZMod q
deriving DecidableEq

/-- Modelled from the spec: `Point::generator` of primitives/group.rs. -/
def Point.generator (q : Nat) : Point q := ⟨1⟩

/-- Modelled from the spec: `point * scalar` of primitives/group.rs,
the group's scalar multiplication. -/
def Point.smul {q : Nat} (p : Point q) (s : Scalar q) : Point q :=
  ⟨p.dlog * s⟩

/-- Byte-wise xor of two equal-length buffers (the PBKDF2 accumulator). -/
def xorBytes (a b : List Nat) : List Nat := List.zipWith Nat.xor a b

/-- Modelled from the spec: the iteration loop of PBKDF2 (RFC 2898) as
performed by `ring::pbkdf2::derive`; `prf` abstracts HMAC-SHA-256
(key → message → 32-byte output), injected because ring is an external
primitive. `n` is the number of PRF applications still to perform,
`acc` the xor accumulator, `u` the previous `U_j`. -/
def pbkdf2Loop (prf : List Nat → List Nat → List Nat) (secret : List Nat) :
    Nat → List Nat → List Nat → List Nat
  | 0, acc, _ => acc
  | n + 1, acc, u =>
    let u' := prf secret u
    pbkdf2Loop prf secret n (xorBytes acc u') u'

/-- Modelled from the spec: `ring::pbkdf2::derive` with PBKDF2-HMAC-SHA-256
for a single output block (`outLen` ≤ 32 = the PRF output size):
`U_1 = prf(secret, salt ‖ INT(1))`, `U_{j+1} = prf(secret, U_j)`,
output `= U_1 ⊕ ⋯ ⊕ U_iter`, truncated to `outLen` bytes. Argument order
follows ring: iterations, salt, secret, output length. -/
def pbkdf2Derive (prf : List Nat → List Nat → List Nat) (iter : Nat)
    (salt secret : List Nat) (outLen : Nat) : List Nat :=
  let u1 := prf secret (salt ++ [0, 0, 0, 1])
  (pbkdf2Loop prf secret (iter - 1) u1 u1).take outLen

/-- `ExpandedCredential` of credentials.rs. -/
structure ExpandedCredential (q : Nat) where
  password : Password
  uuid : UUID
  secret_key : Scalar q
  public_key : Point q
deriving DecidableEq

/-- `impl From<Credential> for ExpandedCredential`: PBKDF2-HMAC-SHA-256,
1000 iterations, salt = the UUID's bytes, secret = the password's bytes,
32 bytes of output; the scalar is the mod-order reduction of that output
and the public key is `generator * secret_key`. -/
def ExpandedCredential.ofCredential (q : Nat)
    (prf : List Nat → List Nat → List Nat) (c : Credential) :
    ExpandedCredential q :=
  let out := pbkdf2Derive prf 1000 c.uuid.val.str c.password.val.str 32
  let secret_key := Scalar.from_bytes_mod_order q out
  let public_key := (Point.generator q).smul secret_key
  ⟨c.password, c.uuid, secret_key, public_key⟩

/-- `NonZeroU32::new`: `none` exactly on a zero input. -/
def nonZeroU32New (n : Nat) : Option Nat :=
  if n % 2 ^ 32 = 0 then none else some (n % 2 ^ 32)

/-- `impl From<Credential> for ExpandedCredential` with its one fallible
step kept explicit: the code unwraps `NonZeroU32::new(1000)`; `none`
models that unwrap panicking. -/
def ExpandedCredential.ofCredentialOpt (q : Nat)
    (prf : List Nat → List Nat → List Nat) (c : Credential) :
    Option (ExpandedCredential q) :=
  match nonZeroU32New 1000 with
  | none => none
  | some iter =>
    let out := pbkdf2Derive prf iter c.uuid.val.str c.password.val.str 32
    let secret_key := Scalar.from_bytes_mod_order q out
    let public_key := (Point.generator q).smul secret_key
    some ⟨c.password, c.uuid, secret_key, public_key⟩

/-- `ExpandedCredential::gen`: `Credential::gen(rng, uuid).into()`. -/
def ExpandedCredential.gen (q : Nat)
    (prf : List Nat → List Nat → List Nat) (b : Base58) (u : UUID) :
    Option (ExpandedCredential q) :=
  (Credential.gen b u).map (ExpandedCredential.ofCredential q prf)

/-- `impl From<ExpandedCredential> for Credential`: keep (password, uuid),
discard the derived keys. -/
def Credential.ofExpanded {q : Nat} (e : ExpandedCredential q) : Credential :=
  ⟨e.password, e.uuid⟩

/-- Digit value of a byte: total version of the inverse-table lookup
(the default 255 is the table's own marker for non-alphabet bytes). -/
def digitOf (c : Nat) : Nat := INV_LOOKUPTABLE.getD c 255

/-- Wrap-free weighted sum of the checksum loop: each term already reduced
modulo 53, the running sum kept exact. -/
def csum : List Nat → Nat → Nat
  | [], _ => 0
  | c :: rest, idx => 58 ^ idx * digitOf c % 53 + csum rest (idx + 1)

/-- Wrap-free final step of `Password::checksum`:
`(53 - s).rem_euclid(53)` over the exact accumulator value. -/
def chkOf (s : Nat) : Nat := ((53 - (s : Int)) % 53).toNat

/-- The checksum value `Password::checksum` computes, written without any
machine-width truncation: the idealised semantics the implementation is
proved to match on every invariant-respecting password. -/
def idealChecksum (p : Password) : Nat :=
  chkOf (csum ((p.val.str.take (BASE58_STRLEN - 1)).reverse) 0)

/-- The checksum loop's weighted sum, carried out in `ZMod 53`. -/
def zcsum : List Nat → Nat → ZMod 53
  | [], _ => 0
  | c :: rest, idx =>
    ((58 : Nat) : ZMod 53) ^ idx * ((digitOf c : Nat) : ZMod 53) +
      zcsum rest (idx + 1)

/-- The unreduced weighted sum `Σ_i 58 ^ i · d_i` over the reversed
leading characters. -/
def sumPow : List Nat → Nat → Nat
  | [], _ => 0
  | c :: rest, idx => 58 ^ idx * digitOf c + sumPow rest (idx + 1)

/-- The checksum exactly as the specification words it: digits `d_i` of
the reversed first N−1 characters, `s = (Σ_i 58 ^ i · d_i) mod 53`,
checksum `c = (53 − s) mod 53`. -/
def checksumSpec (p : Password) : Nat :=
  (53 - ((((p.val.str.take (BASE58_STRLEN - 1)).reverse).enum.map
      fun pr => 58 ^ pr.1 * digitOf pr.2).sum % 53)) % 53

/-- Key expansion exactly as the specification words it (section 4.5,
steps 1-3): derive 32 bytes with PBKDF2 (1000 iterations), the password's
raw bytes as the keying secret, the identifier's raw bytes as the salt;
reduce them mod the group order; multiply the generator by the scalar. -/
def specKeyExpansion (q : Nat) (prf : List Nat → List Nat → List Nat)
    (passwordBytes identifierBytes : List Nat) : Scalar q × Point q :=
  (Scalar.from_bytes_mod_order q
      (pbkdf2Derive prf 1000 identifierBytes passwordBytes 32),
   (Point.generator q).smul
     (Scalar.from_bytes_mod_order q
       (pbkdf2Derive prf 1000 identifierBytes passwordBytes 32)))

/-- A trivial stand-in PRF (32 zero bytes) used to instantiate the
abstract HMAC parameter on concrete examples. -/
def prfZero : List Nat → List Nat → List Nat := fun _ _ => List.replicate 32 0

/-- A concrete password: 22 copies of the symbol `1` (its checksum digit
is 0, whose symbol is again `1`, so it is self-consistent). -/
def passOnes : Password := ⟨⟨List.replicate 22 49⟩⟩

/-- A concrete election identifier: 22 copies of the symbol `2`. -/
def uuidTwos : UUID := ⟨⟨List.replicate 22 50⟩⟩

/-- A concrete credential built from `passOnes` and `uuidTwos`. -/
def credOnes : Credential := ⟨passOnes, uuidTwos⟩

/-- The expansion of `credOnes` in the order-7 instance of the group
model, with the stand-in PRF. -/
def expOnes : ExpandedCredential 7 :=
  ExpandedCredential.ofCredential 7 prfZero credOnes

instance fact_prime_53 : Fact (Nat.Prime 53) := ⟨by norm_num⟩

/-! ### Facts about the tables and the machine-arithmetic wraps -/

theorem inv_table_length : INV_LOOKUPTABLE.length = 256 := by decide

theorem lookup_table_length : LOOKUPTABLE.length = 58 := by decide

theorem lookup_lt_256 : ∀ c ∈ LOOKUPTABLE, c < 256 := by decide

theorem inv_lt_256 : ∀ d ∈ INV_LOOKUPTABLE, d < 256 := by decide

theorem inv_get?_eq {c : Nat} (h : c < 256) :
    INV_LOOKUPTABLE.get? c = some (digitOf c) := by
  have h' : c < INV_LOOKUPTABLE.length := by rw [inv_table_length]; exact h
  rw [digitOf, List.getD_eq_get?, List.get?_eq_get h']
  rfl

theorem lookup_get?_eq {c : Nat} (h : c < 58) :
    LOOKUPTABLE.get? c = some (LOOKUPTABLE.getD c 0) := by
  have h' : c < LOOKUPTABLE.length := by rw [lookup_table_length]; exact h
  rw [List.getD_eq_get?, List.get?_eq_get h']
  rfl

theorem digitOf_lt_256 (c : Nat) : digitOf c < 256 := by
  rw [digitOf, List.getD_eq_get?]
  rcases hc : INV_LOOKUPTABLE.get? c with _ | d
  · exact Nat.lt_of_sub_eq_succ rfl
  · exact inv_lt_256 d (List.get?_mem hc)

theorem wrap128_eq {n : Nat} (h : n < 2 ^ 128) : wrap128 n = n :=
  Nat.mod_eq_of_lt h

theorem wrapIsize_eq {z : Int} (h1 : -(2 ^ 63) ≤ z) (h2 : z < 2 ^ 63) :
    wrapIsize z = z := by
  unfold wrapIsize
  have e1 : (2 : Int) ^ 63 = 9223372036854775808 := by norm_num
  have e2 : (2 : Int) ^ 64 = 18446744073709551616 := by norm_num
  rw [e1, e2] at *
  omega

theorem pow58_le {i : Nat} (h : i ≤ 20) : 58 ^ i ≤ 58 ^ 20 :=
  Nat.pow_le_pow_right (by norm_num) h

theorem pow58_lt_wrap {i : Nat} (h : i ≤ 20) : 58 ^ i < 2 ^ 128 :=
  lt_of_le_of_lt (pow58_le h) (by norm_num)

theorem pow58_mul_lt {i d : Nat} (hi : i ≤ 20) (hd : d < 256) :
    58 ^ i * d < 2 ^ 128 := by
  calc 58 ^ i * d ≤ 58 ^ 20 * 255 := Nat.mul_le_mul (pow58_le hi) (by omega)
  _ < 2 ^ 128 := by norm_num

/-! ### The checksum loop computes the wrap-free weighted sum -/

theorem csum_le (l : List Nat) : ∀ idx : Nat, csum l idx ≤ 52 * l.length := by
  induction l with
  | nil => intro idx; simp [csum]
  | cons c rest ih =>
    intro idx
    have h1 : 58 ^ idx * digitOf c % 53 < 53 := Nat.mod_lt _ (by norm_num)
    have h2 := ih (idx + 1)
    simp only [csum, List.length_cons]
    omega

theorem checksumLoop_eq : ∀ (l : List Nat) (idx check : Nat),
    (∀ c ∈ l, c < 256) → idx + l.length ≤ 21 → check ≤ 52 * idx →
    checksumLoop l idx check = some (check + csum l idx) := by
  intro l
  induction l with
  | nil => intro idx check _ _ _; simp [checksumLoop, csum]
  | cons c rest ih =>
    intro idx check hlt hlen hcheck
    have hc : c < 256 := hlt c (List.mem_cons_self c rest)
    have hidx : idx ≤ 20 := by
      simp only [List.length_cons] at hlen; omega
    have hmod : idx % 2 ^ 32 = idx :=
      Nat.mod_eq_of_lt (lt_of_le_of_lt hidx (by norm_num))
    have hterm : 58 ^ idx * digitOf c % 53 < 53 := Nat.mod_lt _ (by norm_num)
    have hsum : check + 58 ^ idx * digitOf c % 53 < 2 ^ 128 := by
      have h128 : (2 : Nat) ^ 128 = 340282366920938463463374607431768211456 := by norm_num
      omega
    simp only [checksumLoop, inv_get?_eq hc, hmod, wrap128_eq (pow58_lt_wrap hidx),
      wrap128_eq (pow58_mul_lt hidx (digitOf_lt_256 c)), wrap128_eq hsum]
    rw [ih (idx + 1) _ (fun x hx => hlt x (List.mem_cons_of_mem _ hx))
      (by simp only [List.length_cons] at hlen; omega) (by omega)]
    simp only [csum, Option.some.injEq]
    exact Nat.add_assoc _ _ _

theorem chkOf_lt (s : Nat) : chkOf s < 53 := by
  unfold chkOf
  omega

theorem chkOf_eq_nat (s : Nat) : chkOf s = (53 - s % 53) % 53 := by
  unfold chkOf
  omega

/-! ### `Password.checksum` equals its wrap-free idealisation -/

theorem take21_length {p : Password} (h : isBase58 p.val) :
    ((p.val.str.take (BASE58_STRLEN - 1)).reverse).length = 21 := by
  simp only [List.length_reverse, List.length_take, h.1, BASE58_STRLEN]
  omega

theorem take21_mem {p : Password} (h : isBase58 p.val) :
    ∀ c ∈ (p.val.str.take (BASE58_STRLEN - 1)).reverse, c < 256 := by
  intro c hc
  exact lookup_lt_256 c
    (h.2 c (List.take_subset _ _ (List.mem_reverse.mp hc)))

theorem checksum_eq_ideal (p : Password) (h : isBase58 p.val) :
    p.checksum = some (idealChecksum p) := by
  have hS := checksumLoop_eq ((p.val.str.take (BASE58_STRLEN - 1)).reverse) 0 0
    (take21_mem h) (by rw [take21_length h]) (by omega)
  have hle : csum ((p.val.str.take (BASE58_STRLEN - 1)).reverse) 0 ≤ 52 * 21 := by
    have := csum_le ((p.val.str.take (BASE58_STRLEN - 1)).reverse) 0
    rw [take21_length h] at this
    exact this
  unfold Password.checksum
  rw [hS]
  simp only [Nat.zero_add, Option.some.injEq]
  set S := csum ((p.val.str.take (BASE58_STRLEN - 1)).reverse) 0 with hSdef
  have h0 : (0 : Int) ≤ (S : Int) := Int.natCast_nonneg S
  have hle1 : S ≤ 1092 := by omega
  have hle2 : (S : Int) ≤ 1092 := by exact_mod_cast hle1
  have e63 : (2 : Int) ^ 63 = 9223372036854775808 := by norm_num
  have hw1 : wrapIsize (S : Int) = S := wrapIsize_eq (by omega) (by omega)
  have hw2 : wrapIsize (53 - (S : Int)) = 53 - S :=
    wrapIsize_eq (by omega) (by omega)
  rw [hw1, hw2, idealChecksum, ← hSdef]
  have hlt : chkOf S < 53 := chkOf_lt S
  rw [chkOf] at hlt ⊢
  omega

theorem getD_eq_get {l : List Nat} {n : Nat} {d : Nat} (h : n < l.length) :
    l.getD n d = l.get ⟨n, h⟩ := by
  rw [List.getD_eq_get?, List.get?_eq_get h]
  rfl

theorem validate_eq_ideal (p : Password) (h : isBase58 p.val) :
    p.validate_checksum =
      some (p.val.str.getD (BASE58_STRLEN - 1) 0 ==
            LOOKUPTABLE.getD (idealChecksum p) 0) := by
  have h21 : BASE58_STRLEN - 1 < p.val.str.length := by
    rw [h.1]; norm_num [BASE58_STRLEN]
  have h58 : idealChecksum p < 58 := lt_of_lt_of_le (chkOf_lt _) (by norm_num)
  unfold Password.validate_checksum
  simp only [List.get?_eq_get h21, checksum_eq_ideal p h, lookup_get?_eq h58,
    getD_eq_get h21]

/-! ### The weighted sum modulo 53 -/

theorem csum_cast (l : List Nat) : ∀ idx : Nat,
    ((csum l idx : Nat) : ZMod 53) = zcsum l idx := by
  induction l with
  | nil => intro idx; simp [csum, zcsum]
  | cons c rest ih =>
    intro idx
    simp only [csum, zcsum, Nat.cast_add, ih (idx + 1)]
    congr 1
    rw [ZMod.natCast_mod]
    push_cast
    ring

theorem zcsum_append (a b : List Nat) : ∀ idx : Nat,
    zcsum (a ++ b) idx = zcsum a idx + zcsum b (idx + a.length) := by
  induction a with
  | nil => intro idx; simp [zcsum]
  | cons c rest ih =>
    intro idx
    simp only [List.cons_append, zcsum, List.length_cons, List.append_eq]
    rw [ih (idx + 1)]
    have harith : idx + 1 + rest.length = idx + (rest.length + 1) := by omega
    rw [harith]
    ring

theorem chkOf_inj {s t : Nat} : chkOf s = chkOf t ↔ s % 53 = t % 53 := by
  rw [chkOf_eq_nat, chkOf_eq_nat]
  have hs : s % 53 < 53 := Nat.mod_lt _ (by norm_num)
  have ht : t % 53 < 53 := Nat.mod_lt _ (by norm_num)
  omega

theorem mod53_cast_iff {s t : Nat} :
    s % 53 = t % 53 ↔ ((s : Nat) : ZMod 53) = ((t : Nat) : ZMod 53) :=
  (ZMod.natCast_eq_natCast_iff' s t 53).symm

/-! ### `insert_checksum` rebuilds a valid Base58 value -/

theorem insert_checksum_eq (b : Base58) (hb : isBase58 b) :
    Password.insert_checksum ⟨b⟩ =
      some ⟨⟨b.str.dropLast ++ [LOOKUPTABLE.getD (idealChecksum ⟨b⟩) 0]⟩⟩ := by
  have h58 : idealChecksum ⟨b⟩ < 58 := lt_of_lt_of_le (chkOf_lt _) (by norm_num)
  unfold Password.insert_checksum
  simp only [checksum_eq_ideal ⟨b⟩ hb, lookup_get?_eq h58]

theorem lookup_getD_mem {c : Nat} (h : c < 58) :
    LOOKUPTABLE.getD c 0 ∈ LOOKUPTABLE := by
  have h' : c < LOOKUPTABLE.length := by rw [lookup_table_length]; exact h
  rw [getD_eq_get h']
  exact List.get_mem _ _ _

theorem insert_result_isBase58 (b : Base58) (hb : isBase58 b) :
    isBase58 ⟨b.str.dropLast ++ [LOOKUPTABLE.getD (idealChecksum ⟨b⟩) 0]⟩ := by
  have h58 : idealChecksum ⟨b⟩ < 58 := lt_of_lt_of_le (chkOf_lt _) (by norm_num)
  constructor
  · simp only [List.length_append, List.length_dropLast, hb.1, BASE58_STRLEN,
      List.length_cons, List.length_nil]
  · intro c hc
    rcases List.mem_append.mp hc with hc | hc
    · exact hb.2 c (List.dropLast_subset _ hc)
    · rcases List.mem_singleton.mp hc with rfl
      exact lookup_getD_mem h58

theorem insert_result_take21 (b : Base58) (hb : isBase58 b) (sym : Nat) :
    (b.str.dropLast ++ [sym]).take (BASE58_STRLEN - 1) =
      b.str.take (BASE58_STRLEN - 1) := by
  have hlen : b.str.dropLast.length = BASE58_STRLEN - 1 := by
    simp [List.length_dropLast, hb.1]
  rw [List.take_append_of_le_length (by rw [hlen]),
    List.dropLast_eq_take, hb.1, List.take_take]
  simp [BASE58_STRLEN]

theorem insert_result_validates (b : Base58) (hb : isBase58 b) :
    Password.validate_checksum
      ⟨⟨b.str.dropLast ++ [LOOKUPTABLE.getD (idealChecksum ⟨b⟩) 0]⟩⟩ =
      some true := by
  have hb' : isBase58 (Base58.mk
      (b.str.dropLast ++ [LOOKUPTABLE.getD (idealChecksum ⟨b⟩) 0])) :=
    insert_result_isBase58 b hb
  rw [validate_eq_ideal _ hb']
  have hideal : idealChecksum
      (⟨⟨b.str.dropLast ++ [LOOKUPTABLE.getD (idealChecksum ⟨b⟩) 0]⟩⟩ : Password) =
      idealChecksum ⟨b⟩ := by
    unfold idealChecksum
    dsimp only
    rw [insert_result_take21 b hb]
  have hlen : b.str.dropLast.length = BASE58_STRLEN - 1 := by
    simp [List.length_dropLast, hb.1]
  have hgetD : (b.str.dropLast ++
      [LOOKUPTABLE.getD (idealChecksum ⟨b⟩) 0]).getD (BASE58_STRLEN - 1) 0 =
      LOOKUPTABLE.getD (idealChecksum ⟨b⟩) 0 := by
    rw [List.getD_eq_get?, ← hlen, List.get?_concat_length]
    rfl
  dsimp only
  rw [hideal, hgetD]
  simp

/-- Claim C3: every password produced by `Password::gen` (and hence the
password inside every credential produced by `Credential::gen`) has a
valid checksum: `validate_checksum` returns `true` on it. -/
theorem c3_generated_passwords_validate (b : Base58) (u : UUID)
    (hb : isBase58 b) :
    (∃ p, Password.gen b = some p ∧ p.validate_checksum = some true) ∧
    (∀ cr, Credential.gen b u = some cr →
      cr.password.validate_checksum = some true) := by
  have hins := insert_checksum_eq b hb
  have hval := insert_result_validates b hb
  constructor
  · exact ⟨_, by rw [Password.gen, hins], hval⟩
  · intro cr hcr
    rw [Credential.gen, Password.gen, hins, Option.map_some'] at hcr
    cases hcr
    exact hval

/-- Witness for claim C3 at the concrete all-ones draw. -/
theorem c3_witness :
    isBase58 ⟨List.replicate 22 49⟩ ∧
    (∃ p, Password.gen ⟨List.replicate 22 49⟩ = some p ∧
      p.validate_checksum = some true) :=
  ⟨by decide,
   (c3_generated_passwords_validate ⟨List.replicate 22 49⟩ ⟨⟨[]⟩⟩ (by decide)).1⟩

/-- Claim C10: `insert_checksum` (and hence `Password::gen`) preserves the
Base58 invariant: it removes exactly one trailing character, appends
`LOOKUPTABLE[c]` for a checksum value `c < 53 < 58`, and the result again
has exactly `BASE58_STRLEN` characters, all drawn from the alphabet. -/
theorem c10_insert_checksum_preserves_invariant (b : Base58)
    (hb : isBase58 b) :
    ∃ p : Password,
      Password.insert_checksum ⟨b⟩ = some p ∧
      Password.gen b = some p ∧
      p.val.str = b.str.dropLast ++ [LOOKUPTABLE.getD (idealChecksum ⟨b⟩) 0] ∧
      idealChecksum ⟨b⟩ < 53 ∧
      isBase58 p.val := by
  refine ⟨_, insert_checksum_eq b hb, ?_, rfl, chkOf_lt _, ?_⟩
  · rw [Password.gen, insert_checksum_eq b hb]
  · exact insert_result_isBase58 b hb

/-- Witness for claim C10 at the concrete all-ones draw. -/
theorem c10_witness :
    isBase58 ⟨List.replicate 22 49⟩ ∧
    ∃ p : Password,
      Password.insert_checksum ⟨⟨List.replicate 22 49⟩⟩ = some p ∧
      Password.gen ⟨List.replicate 22 49⟩ = some p ∧
      p.val.str = (List.replicate 22 49 : List Nat).dropLast ++
        [LOOKUPTABLE.getD (idealChecksum ⟨⟨List.replicate 22 49⟩⟩) 0] ∧
      idealChecksum ⟨⟨List.replicate 22 49⟩⟩ < 53 ∧
      isBase58 p.val :=
  ⟨by decide,
   c10_insert_checksum_preserves_invariant ⟨List.replicate 22 49⟩ (by decide)⟩

/-! ### The specification's checksum formula -/

theorem csum_mod (l : List Nat) : ∀ idx : Nat,
    csum l idx % 53 = sumPow l idx % 53 := by
  induction l with
  | nil => intro idx; rfl
  | cons c rest ih =>
    intro idx
    simp only [csum, sumPow]
    have h := ih (idx + 1)
    omega

theorem sumPow_enumFrom (l : List Nat) : ∀ idx : Nat,
    sumPow l idx =
      ((l.enumFrom idx).map fun pr => 58 ^ pr.1 * digitOf pr.2).sum := by
  induction l with
  | nil => intro idx; rfl
  | cons c rest ih =>
    intro idx
    simp only [sumPow, List.enumFrom_cons, List.map_cons, List.sum_cons,
      ih (idx + 1)]

/-- Claim C4: `Password::checksum` equals the specification's formula
`c = (53 − s) mod 53` with `s = (Σ_i 58 ^ i · d_i) mod 53` over the
reversed first N−1 digits, and the returned value lies in `[0, 53)`. -/
theorem c4_checksum_matches_spec_formula (p : Password)
    (h : isBase58 p.val) :
    p.checksum = some (checksumSpec p) ∧ checksumSpec p < 53 := by
  have heq : idealChecksum p = checksumSpec p := by
    unfold idealChecksum checksumSpec
    rw [chkOf_eq_nat, csum_mod _ 0, sumPow_enumFrom _ 0,
      List.enum_eq_enumFrom]
  refine ⟨?_, ?_⟩
  · rw [checksum_eq_ideal p h, heq]
  · rw [← heq]
    exact chkOf_lt _

/-- Witness for claim C4 at a concrete password. -/
theorem c4_witness :
    isBase58 (⟨List.replicate 22 49⟩ : Base58) ∧
    ((⟨⟨List.replicate 22 49⟩⟩ : Password).checksum =
      some (checksumSpec ⟨⟨List.replicate 22 49⟩⟩) ∧
     checksumSpec (⟨⟨List.replicate 22 49⟩⟩ : Password) < 53) :=
  ⟨by decide, c4_checksum_matches_spec_formula ⟨⟨List.replicate 22 49⟩⟩ (by decide)⟩

/-- Claim C9: under the Base58 invariant, `checksum` and
`validate_checksum` are panic-free (no `none`) and exact: the computed
value agrees with the wrap-free idealisation (so the `u128` products and
the `u128`-to-`isize` cast never wrap), and it is below 53. -/
theorem c9_checksum_panic_free_exact (p : Password) (h : isBase58 p.val) :
    p.checksum = some (idealChecksum p) ∧ idealChecksum p < 53 ∧
    ∃ bl, p.validate_checksum = some bl :=
  ⟨checksum_eq_ideal p h, chkOf_lt _, _, validate_eq_ideal p h⟩

/-- Witness for claim C9 at a concrete password. -/
theorem c9_witness :
    isBase58 (⟨List.replicate 22 49⟩ : Base58) ∧
    ((⟨⟨List.replicate 22 49⟩⟩ : Password).checksum =
      some (idealChecksum ⟨⟨List.replicate 22 49⟩⟩) ∧
     idealChecksum (⟨⟨List.replicate 22 49⟩⟩ : Password) < 53 ∧
     ∃ bl, (⟨⟨List.replicate 22 49⟩⟩ : Password).validate_checksum = some bl) :=
  ⟨by decide, c9_checksum_panic_free_exact ⟨⟨List.replicate 22 49⟩⟩ (by decide)⟩

/-! ### Key expansion -/

theorem xorBytes_length (a b : List Nat) :
    (xorBytes a b).length = min a.length b.length := by
  simp [xorBytes]

theorem pbkdf2Loop_length (prf : List Nat → List Nat → List Nat)
    (secret : List Nat) (hprf : ∀ k m, (prf k m).length = 32) :
    ∀ (n : Nat) (acc u : List Nat), acc.length = 32 →
      (pbkdf2Loop prf secret n acc u).length = 32 := by
  intro n
  induction n with
  | zero => intro acc u h; exact h
  | succ n ih =>
    intro acc u h
    simp only [pbkdf2Loop]
    exact ih _ _ (by rw [xorBytes_length, h, hprf]; rfl)

/-- Claim C1: `ExpandedCredential::from` derives exactly 32 bytes via
PBKDF2-HMAC-SHA-256 at 1000 iterations with the password's raw bytes as
keying secret and the uuid's raw bytes as salt, reduces them mod the
group order to the secret scalar, and sets
`public_key = generator · secret_scalar` — i.e. it agrees with the
specification's key-expansion formula `specKeyExpansion`. -/
theorem c1_key_expansion (q : Nat) (prf : List Nat → List Nat → List Nat)
    (c : Credential) (hprf : ∀ k m, (prf k m).length = 32) :
    (pbkdf2Derive prf 1000 c.uuid.val.str c.password.val.str 32).length = 32 ∧
    (ExpandedCredential.ofCredential q prf c).secret_key =
      (specKeyExpansion q prf c.password.val.str c.uuid.val.str).1 ∧
    (ExpandedCredential.ofCredential q prf c).public_key =
      (specKeyExpansion q prf c.password.val.str c.uuid.val.str).2 := by
  refine ⟨?_, rfl, rfl⟩
  unfold pbkdf2Derive
  rw [List.length_take, pbkdf2Loop_length prf _ hprf _ _ _ (hprf _ _)]
  exact Nat.min_self 32

/-- Witness for claim C1 at a concrete credential and PRF. -/
theorem c1_witness :
    (∀ k m, (prfZero k m).length = 32) ∧
    ((pbkdf2Derive prfZero 1000 credOnes.uuid.val.str
        credOnes.password.val.str 32).length = 32 ∧
     (ExpandedCredential.ofCredential 7 prfZero credOnes).secret_key =
       (specKeyExpansion 7 prfZero credOnes.password.val.str
         credOnes.uuid.val.str).1 ∧
     (ExpandedCredential.ofCredential 7 prfZero credOnes).public_key =
       (specKeyExpansion 7 prfZero credOnes.password.val.str
         credOnes.uuid.val.str).2) :=
  ⟨fun _ _ => List.length_replicate 32 0,
   c1_key_expansion 7 prfZero credOnes (fun _ _ => List.length_replicate 32 0)⟩

/-- Claim C2: key expansion is deterministic — it is a pure function of
the (password, uuid) pair, so two credentials carrying the same password
and uuid expand to bit-identical secret scalars and public points. -/
theorem c2_expansion_deterministic (q : Nat)
    (prf : List Nat → List Nat → List Nat) (c1 c2 : Credential)
    (hp : c1.password = c2.password) (hu : c1.uuid = c2.uuid) :
    ExpandedCredential.ofCredential q prf c1 =
      ExpandedCredential.ofCredential q prf c2 := by
  cases c1
  cases c2
  cases hp
  cases hu
  rfl

/-- Witness for claim C2 at a concrete credential. -/
theorem c2_witness :
    credOnes.password = credOnes.password ∧ credOnes.uuid = credOnes.uuid ∧
    ExpandedCredential.ofCredential 7 prfZero credOnes =
      ExpandedCredential.ofCredential 7 prfZero credOnes :=
  ⟨rfl, rfl, c2_expansion_deterministic 7 prfZero credOnes credOnes rfl rfl⟩

/-- Claim C5: for every ExpandedCredential produced by
`ExpandedCredential::from` or `ExpandedCredential::gen`,
`public_key = generator · secret_key` holds exactly. -/
theorem c5_public_key_consistency (q : Nat)
    (prf : List Nat → List Nat → List Nat) (c : Credential) (b : Base58)
    (u : UUID) :
    (ExpandedCredential.ofCredential q prf c).public_key =
      (Point.generator q).smul
        (ExpandedCredential.ofCredential q prf c).secret_key ∧
    ∀ e, ExpandedCredential.gen q prf b u = some e →
      e.public_key = (Point.generator q).smul e.secret_key := by
  refine ⟨rfl, ?_⟩
  intro e he
  rw [ExpandedCredential.gen] at he
  rcases Option.map_eq_some'.mp he with ⟨cr, _, rfl⟩
  rfl

/-- Witness for claim C5: a concrete generated expanded credential. -/
theorem c5_witness :
    ExpandedCredential.gen 7 prfZero ⟨List.replicate 22 49⟩ uuidTwos =
      some expOnes ∧
    expOnes.public_key = (Point.generator 7).smul expOnes.secret_key := by
  have hgen : ExpandedCredential.gen 7 prfZero ⟨List.replicate 22 49⟩
      uuidTwos = some expOnes := by decide
  exact ⟨hgen,
    (c5_public_key_consistency 7 prfZero credOnes ⟨List.replicate 22 49⟩
      uuidTwos).2 expOnes hgen⟩

/-- Claim C6: the round trip `Credential::from(ExpandedCredential::from(c))`
reproduces `c`'s password and uuid unchanged — the reverse conversion
discards only the derived keys. -/
theorem c6_round_trip (q : Nat) (prf : List Nat → List Nat → List Nat)
    (c : Credential) :
    Credential.ofExpanded (ExpandedCredential.ofCredential q prf c) = c :=
  rfl

/-- Claim C8: key expansion has no failure path — with its single
fallible step (`NonZeroU32::new(1000).unwrap()`) modelled explicitly,
`From<Credential>` still succeeds on every credential and returns
exactly the total function's value. -/
theorem c8_expansion_total (q : Nat) (prf : List Nat → List Nat → List Nat)
    (c : Credential) :
    ExpandedCredential.ofCredentialOpt q prf c =
      some (ExpandedCredential.ofCredential q prf c) := by
  have h : nonZeroU32New 1000 = some 1000 := by decide
  unfold ExpandedCredential.ofCredentialOpt
  rw [h]
  rfl

/-! ### Single-character error detection -/

theorem lookup_inj : ∀ a < 58, ∀ b < 58,
    LOOKUPTABLE.getD a 0 = LOOKUPTABLE.getD b 0 → a = b := by decide

theorem zcsum_middle (A B : List Nat) (x : Nat) :
    zcsum (A ++ x :: B) 0 = zcsum A 0 +
      ((58 : Nat) : ZMod 53) ^ A.length * ((digitOf x : Nat) : ZMod 53) +
      zcsum B (A.length + 1) := by
  rw [zcsum_append]
  simp only [Nat.zero_add, zcsum]
  ring

theorem csum_set_ne (t : List Nat) (j c' : Nat) (hj : j < t.length)
    (hd : digitOf c' % 53 ≠ digitOf (t.getD j 0) % 53) :
    ¬ (csum ((t.set j c').reverse) 0 % 53 = csum t.reverse 0 % 53) := by
  intro hmod
  have hz := mod53_cast_iff.mp hmod
  rw [csum_cast, csum_cast] at hz
  have hteq : t = t.take j ++ t.getD j 0 :: t.drop (j + 1) := by
    conv_lhs => rw [← List.take_append_drop j t]
    rw [List.drop_eq_getElem_cons hj, List.getD_eq_getElem t 0 hj]
  have hseteq : t.set j c' = t.take j ++ c' :: t.drop (j + 1) := by
    rw [List.set_eq_take_append_cons_drop, if_pos hj]
  have hrev1 : t.reverse =
      (t.drop (j + 1)).reverse ++ t.getD j 0 :: (t.take j).reverse := by
    conv_lhs => rw [hteq]
    rw [List.reverse_append, List.reverse_cons, List.append_assoc,
      List.singleton_append]
  have hrev2 : (t.set j c').reverse =
      (t.drop (j + 1)).reverse ++ c' :: (t.take j).reverse := by
    rw [hseteq, List.reverse_append, List.reverse_cons, List.append_assoc,
      List.singleton_append]
  rw [hrev1, hrev2, zcsum_middle, zcsum_middle] at hz
  have h1 := add_right_cancel hz
  have h2 := add_left_cancel h1
  have hpow : ((58 : Nat) : ZMod 53) ^ ((t.drop (j + 1)).reverse).length ≠ 0 :=
    pow_ne_zero _ (by decide)
  have hdigeq := mul_left_cancel₀ hpow h2
  exact hd (mod53_cast_iff.mpr hdigeq)

/-- Claim C7: replacing one character, at any position `j` among the
first N−1 of a valid password, by a different alphabet symbol whose
digit value is not congruent to the original digit modulo 53, makes
`validate_checksum` return `false`; and for each alphabet symbol at most
one of the 57 alternative symbols shares its digit value modulo 53 (the
52/53 detection rate). -/
theorem c7_single_char_error_detection :
    (∀ (p : Password) (j c' : Nat), isBase58 p.val →
      p.validate_checksum = some true → j < BASE58_STRLEN - 1 →
      c' ∈ LOOKUPTABLE → c' ≠ p.val.str.getD j 0 →
      digitOf c' % 53 ≠ digitOf (p.val.str.getD j 0) % 53 →
      (⟨⟨p.val.str.set j c'⟩⟩ : Password).validate_checksum = some false) ∧
    (∀ c ∈ LOOKUPTABLE,
      (LOOKUPTABLE.filter fun c' =>
        decide (c' ≠ c) && decide (digitOf c' % 53 = digitOf c % 53)).length
        ≤ 1) := by
  constructor
  · intro p j c' hb hval hj hc' hne hd
    have hb' : isBase58 ⟨p.val.str.set j c'⟩ := by
      constructor
      · rw [List.length_set]
        exact hb.1
      · intro x hx
        rcases List.mem_or_eq_of_mem_set hx with hx | rfl
        · exact hb.2 x hx
        · exact hc'
    rw [validate_eq_ideal p hb] at hval
    rw [validate_eq_ideal _ hb']
    have hj21 : j ≠ BASE58_STRLEN - 1 := by
      simp only [BASE58_STRLEN] at hj ⊢
      omega
    have hlast : (p.val.str.set j c').getD (BASE58_STRLEN - 1) 0 =
        p.val.str.getD (BASE58_STRLEN - 1) 0 := by
      rw [List.getD_eq_get?, List.getD_eq_get?, List.get?_set_ne c' _ hj21]
    have hj' : j < (p.val.str.take (BASE58_STRLEN - 1)).length := by
      rw [List.length_take, hb.1]
      simp only [BASE58_STRLEN] at hj ⊢
      omega
    have hj22 : j < p.val.str.length := by
      rw [hb.1]
      simp only [BASE58_STRLEN] at hj ⊢
      omega
    have hdig : (p.val.str.take (BASE58_STRLEN - 1)).getD j 0 =
        p.val.str.getD j 0 := by
      rw [List.getD_eq_getElem _ 0 hj', List.getD_eq_getElem _ 0 hj22]
      simp [List.getElem_take]
    have htake : (p.val.str.set j c').take (BASE58_STRLEN - 1) =
        (p.val.str.take (BASE58_STRLEN - 1)).set j c' := List.set_take
    have hne53 : idealChecksum ⟨⟨p.val.str.set j c'⟩⟩ ≠ idealChecksum p := by
      unfold idealChecksum
      dsimp only
      rw [htake]
      intro heq
      exact csum_set_ne _ j c' hj' (by rw [hdig]; exact hd) (chkOf_inj.mp heq)
    have hval' : p.val.str.getD (BASE58_STRLEN - 1) 0 =
        LOOKUPTABLE.getD (idealChecksum p) 0 := by
      simpa using hval
    dsimp only
    rw [hlast, hval']
    simp only [Option.some.injEq]
    rw [beq_eq_false_iff_ne]
    intro hcontra
    exact hne53 (lookup_inj _ (lt_of_lt_of_le (chkOf_lt _) (by norm_num)) _
      (lt_of_lt_of_le (chkOf_lt _) (by norm_num)) hcontra.symm)
  · decide

/-- Witness for claim C7: corrupting the first character of the valid
all-ones password into the symbol `2` is detected. -/
theorem c7_witness :
    (isBase58 (⟨List.replicate 22 49⟩ : Base58) ∧
     (⟨⟨List.replicate 22 49⟩⟩ : Password).validate_checksum = some true ∧
     (0 : Nat) < BASE58_STRLEN - 1 ∧
     (50 : Nat) ∈ LOOKUPTABLE ∧
     (50 : Nat) ≠ (List.replicate 22 49 : List Nat).getD 0 0 ∧
     digitOf 50 % 53 ≠
       digitOf ((List.replicate 22 49 : List Nat).getD 0 0) % 53) ∧
    (⟨⟨(List.replicate 22 49 : List Nat).set 0 50⟩⟩ : Password).validate_checksum
      = some false :=
  ⟨⟨by decide, by decide, by decide, by decide, by decide, by decide⟩,
   c7_single_char_error_detection.1 ⟨⟨List.replicate 22 49⟩⟩ 0 50 (by decide)
     (by decide) (by decide) (by decide) (by decide) (by decide)⟩
